import Mathlib

/-!
Verification development for a multiplayer Blackjack engine.

The definitions below are a shallow embedding of the engine's source:
`deck.py` (Card, Deck), `player.py` (Player), `dealer.py` (Dealer) and
`game_multiplayer.py` (MultiPlayerBlackjack).  Python machine integers are
arbitrary precision, so chip amounts are modelled as `Int`; hands are ordered
`List Card`; Python dictionaries keyed by unique names become association
lists.  Randomness (`random.shuffle`, the order of cards coming out of the
shoe) is modelled by an explicit shuffle parameter or an explicit card stream.
-/

/-- One of the four suits.  Suits are semantically inert in blackjack. -/
inductive Suit
  | hearts | diamonds | clubs | spades
deriving DecidableEq, Repr

/-- Ranks 2..10, J, Q, K, A, as in `Deck.RANKS`. -/
inductive Rank
  | two | three | four | five | six | seven | eight | nine | ten
  | jack | queen | king | ace
deriving DecidableEq, Repr

/-- `Card.value`: J/Q/K count 10, A counts 11 (high), numerals their number. -/
def Rank.value : Rank → Nat
  | .two => 2
  | .three => 3
  | .four => 4
  | .five => 5
  | .six => 6
  | .seven => 7
  | .eight => 8
  | .nine => 9
  | .ten => 10
  | .jack => 10
  | .queen => 10
  | .king => 10
  | .ace => 11

/-- A playing card: suit and rank (`Card` dataclass in `deck.py`). -/
structure Card where
  suit : Suit
  rank : Rank
deriving DecidableEq, Repr

/-- The blackjack value of a card (`Card.value` property). -/
def Card.value (c : Card) : Nat := c.rank.value

/-- The minimum value of a card: an Ace downgraded to 1, others fixed.
Used only in specifications and termination measures, not by the code. -/
def Card.minValue (c : Card) : Nat := if c.rank = Rank.ace then 1 else c.value

/-- The ace-conversion loop of `get_score`:
`while score > 21 and aces > 0: score -= 10; aces -= 1`. -/
def adjustAces (score : Nat) : Nat → Nat
  | 0 => score
  | a + 1 => if 21 < score then adjustAces (score - 10) a else score

/-- Number of aces in a hand (`sum(1 for card in hand if card.rank == 'A')`). -/
def aceCount (hand : List Card) : Nat :=
  hand.countP (fun c => decide (c.rank = Rank.ace))

/-- `get_score` of `player.py` and `dealer.py` (identical logic): sum the
card values (aces high) then downgrade aces while the total busts. -/
def getScore (hand : List Card) : Nat :=
  adjustAces ((hand.map Card.value).sum) (aceCount hand)

/-- Total of the hand with every ace counted as 1: the guaranteed minimum. -/
def bustMin (hand : List Card) : Nat := (hand.map Card.minValue).sum

/-- Specification-side valuation: the total of a hand under an explicit
choice of 1 or 11 for each ace.  The list of booleans is consumed one entry
per ace (`true` = count that ace as 11); a missing entry counts the ace as 1. -/
def chosenTotal : List Card → List Bool → Nat
  | [], _ => 0
  | c :: cs, bs =>
    if c.rank = Rank.ace then
      match bs with
      | [] => 1 + chosenTotal cs []
      | b :: bs => (if b then 11 else 1) + chosenTotal cs bs
    else
      c.value + chosenTotal cs bs

/-- A total is achievable for a hand when some per-ace choice of 1 or 11
yields it. -/
def Achievable (hand : List Card) (t : Nat) : Prop :=
  ∃ bs : List Bool, chosenTotal hand bs = t

theorem sum_value_eq_bustMin_add (hand : List Card) :
    (hand.map Card.value).sum = bustMin hand + 10 * aceCount hand := by
  induction hand with
  | nil => simp [bustMin, aceCount]
  | cons c cs ih =>
    by_cases hc : c.rank = Rank.ace
    · simp [bustMin, aceCount, List.countP_cons, hc, Card.minValue, Card.value,
        Rank.value, bustMin] at *
      omega
    · simp [bustMin, aceCount, List.countP_cons, hc, Card.minValue] at *
      omega

theorem adjustAces_exists (a : Nat) : ∀ s : Nat, ∃ j, j ≤ a ∧ adjustAces s a + 10 * j = s := by
  induction a with
  | zero => intro s; exact ⟨0, by simp [adjustAces]⟩
  | succ a ih =>
    intro s
    by_cases h : 21 < s
    · obtain ⟨j, hj, hadj⟩ := ih (s - 10)
      exact ⟨j + 1, by omega, by simp [adjustAces, h]; omega⟩
    · exact ⟨0, by omega, by simp [adjustAces, h]⟩

theorem adjustAces_gt (a : Nat) : ∀ s : Nat, 21 < adjustAces s a → adjustAces s a + 10 * a = s := by
  induction a with
  | zero => intro s _; simp [adjustAces]
  | succ a ih =>
    intro s hgt
    by_cases h : 21 < s
    · have h1 := ih (s - 10) (by simpa [adjustAces, h] using hgt)
      simp only [adjustAces, if_pos h] at hgt ⊢
      omega
    · simp only [adjustAces, if_neg h] at hgt ⊢
      omega

theorem adjustAces_max (a : Nat) :
    ∀ s k : Nat, k ≤ a → s ≤ 21 + 10 * k → s ≤ adjustAces s a + 10 * k := by
  induction a with
  | zero => intro s k hk _; interval_cases k; simp [adjustAces]
  | succ a ih =>
    intro s k hk hs
    by_cases h : 21 < s
    · match k with
      | 0 => omega
      | m + 1 =>
        have h1 := ih (s - 10) m (by omega) (by omega)
        simp only [adjustAces, if_pos h]
        omega
    · simp only [adjustAces, if_neg h]
      omega

theorem adjustAces_le (a : Nat) :
    ∀ s k : Nat, k ≤ a → s ≤ 21 + 10 * k → adjustAces s a ≤ 21 := by
  induction a with
  | zero => intro s k hk hs; interval_cases k; simpa [adjustAces] using hs
  | succ a ih =>
    intro s k hk hs
    by_cases h : 21 < s
    · match k with
      | 0 => omega
      | m + 1 =>
        have h1 := ih (s - 10) m (by omega) (by omega)
        simpa [adjustAces, h] using h1
    · simp only [adjustAces, if_neg h]
      omega

theorem chosenTotal_achievable (hand : List Card) :
    ∀ bs : List Bool, ∃ k, k ≤ aceCount hand ∧
      chosenTotal hand bs = bustMin hand + 10 * k := by
  induction hand with
  | nil => intro bs; exact ⟨0, by simp [aceCount], by simp [chosenTotal, bustMin]⟩
  | cons c cs ih =>
    intro bs
    by_cases hc : c.rank = Rank.ace
    · match bs with
      | [] =>
        obtain ⟨k, hk, hv⟩ := ih []
        refine ⟨k, ?_, ?_⟩
        · simp [aceCount, List.countP_cons, hc] at hk ⊢; omega
        · simp [chosenTotal, hc, hv, bustMin, Card.minValue]
          try omega
      | b :: bs =>
        obtain ⟨k, hk, hv⟩ := ih bs
        cases b with
        | false =>
          refine ⟨k, ?_, ?_⟩
          · simp [aceCount, List.countP_cons, hc] at hk ⊢; omega
          · simp [chosenTotal, hc, hv, bustMin, Card.minValue]
            try omega
        | true =>
          refine ⟨k + 1, ?_, ?_⟩
          · simp [aceCount, List.countP_cons, hc] at hk ⊢; omega
          · simp [chosenTotal, hc, hv, bustMin, Card.minValue]
            try omega
    · obtain ⟨k, hk, hv⟩ := ih bs
      refine ⟨k, ?_, ?_⟩
      · simp [aceCount, List.countP_cons, hc] at hk ⊢; try omega
      · simp [chosenTotal, hc, hv, bustMin, Card.minValue]
        try omega

theorem achievable_of_le_aceCount (hand : List Card) :
    ∀ k, k ≤ aceCount hand → ∃ bs, chosenTotal hand bs = bustMin hand + 10 * k := by
  induction hand with
  | nil => intro k hk; simp [aceCount] at hk; exact ⟨[], by simp [chosenTotal, bustMin, hk]⟩
  | cons c cs ih =>
    intro k hk
    by_cases hc : c.rank = Rank.ace
    · have hk' : k ≤ aceCount cs + 1 := by
        simpa [aceCount, List.countP_cons, hc] using hk
      match k with
      | 0 =>
        obtain ⟨bs, hbs⟩ := ih 0 (by omega)
        refine ⟨false :: bs, ?_⟩
        simp [chosenTotal, hc, hbs, bustMin, Card.minValue]
        try omega
      | m + 1 =>
        obtain ⟨bs, hbs⟩ := ih m (by omega)
        refine ⟨true :: bs, ?_⟩
        simp [chosenTotal, hc, hbs, bustMin, Card.minValue]
        try omega
    · have hk' : k ≤ aceCount cs := by
        simpa [aceCount, List.countP_cons, hc] using hk
      obtain ⟨bs, hbs⟩ := ih k hk'
      refine ⟨bs, ?_⟩
      simp [chosenTotal, hc, hbs, bustMin, Card.minValue]
      try omega

theorem achievable_iff (hand : List Card) (t : Nat) :
    Achievable hand t ↔ ∃ k, k ≤ aceCount hand ∧ t = bustMin hand + 10 * k := by
  constructor
  · rintro ⟨bs, rfl⟩
    obtain ⟨k, hk, hv⟩ := chosenTotal_achievable hand bs
    exact ⟨k, hk, hv⟩
  · rintro ⟨k, hk, rfl⟩
    obtain ⟨bs, hbs⟩ := achievable_of_le_aceCount hand k hk
    exact ⟨bs, hbs⟩

theorem bustMin_le_getScore (hand : List Card) : bustMin hand ≤ getScore hand := by
  obtain ⟨j, hj, hadj⟩ := adjustAces_exists (aceCount hand) ((hand.map Card.value).sum)
  have hsum := sum_value_eq_bustMin_add hand
  unfold getScore
  omega

theorem getScore_achievable (hand : List Card) : Achievable hand (getScore hand) := by
  rw [achievable_iff]
  obtain ⟨j, hj, hadj⟩ := adjustAces_exists (aceCount hand) ((hand.map Card.value).sum)
  have hsum := sum_value_eq_bustMin_add hand
  exact ⟨aceCount hand - j, by omega, by unfold getScore; omega⟩

theorem getScore_eq_bustMin_of_gt21 (hand : List Card) :
    21 < getScore hand → getScore hand = bustMin hand := by
  intro h
  have hgt := adjustAces_gt (aceCount hand) ((hand.map Card.value).sum) h
  have hsum := sum_value_eq_bustMin_add hand
  unfold getScore at *
  omega

theorem gt21_getScore_iff (hand : List Card) :
    21 < getScore hand ↔ 21 < bustMin hand := by
  constructor
  · intro h; have := getScore_eq_bustMin_of_gt21 hand h; omega
  · intro h; have := bustMin_le_getScore hand; omega

theorem one_le_minValue (c : Card) : 1 ≤ c.minValue := by
  rcases c with ⟨s, r⟩
  cases r <;> simp [Card.minValue, Card.value, Rank.value]

theorem bustMin_append_card (hand : List Card) (c : Card) :
    bustMin (hand ++ [c]) = bustMin hand + c.minValue := by
  simp [bustMin]

/-- Claim C1: `get_score` (shared verbatim by `Player` and `Dealer`, and by
construction a pure deterministic Lean function here) returns the maximum
total ≤ 21 achievable by choosing each ace as 1 or 11 when one exists, and
otherwise the minimum possible total, with every ace counted as 1. -/
theorem getScore_spec (hand : List Card) :
    Achievable hand (getScore hand) ∧
    (∀ t, Achievable hand t → t ≤ 21 → getScore hand ≤ 21 ∧ t ≤ getScore hand) ∧
    ((∀ t, Achievable hand t → 21 < t) → getScore hand = bustMin hand) := by
  refine ⟨getScore_achievable hand, ?_, ?_⟩
  · intro t hach hle
    rw [achievable_iff] at hach
    obtain ⟨k, hk, rfl⟩ := hach
    have hsum := sum_value_eq_bustMin_add hand
    have h1 := adjustAces_le (aceCount hand) ((hand.map Card.value).sum)
      (aceCount hand - k) (by omega) (by omega)
    have h2 := adjustAces_max (aceCount hand) ((hand.map Card.value).sum)
      (aceCount hand - k) (by omega) (by omega)
    unfold getScore
    constructor
    · exact h1
    · omega
  · intro hall
    have hbm : 21 < bustMin hand := by
      refine hall (bustMin hand) ?_
      rw [achievable_iff]
      exact ⟨0, by omega, by omega⟩
    exact getScore_eq_bustMin_of_gt21 hand ((gt21_getScore_iff hand).mpr hbm)

/-- Concrete cards used in witnesses and counterexamples. -/
def cardAS : Card := ⟨Suit.spades, Rank.ace⟩

def cardKD : Card := ⟨Suit.diamonds, Rank.king⟩

def card5H : Card := ⟨Suit.hearts, Rank.five⟩

def card2C : Card := ⟨Suit.clubs, Rank.two⟩

def card9D : Card := ⟨Suit.diamonds, Rank.nine⟩

def cardTH : Card := ⟨Suit.hearts, Rank.ten⟩

/-- Witness for C1: on the hand A♠ K♦ the achievable total 21 is ≤ 21, so the
scorer must return a non-busting maximum, and 21 is below it. -/
theorem getScore_spec_witness :
    getScore [cardAS, cardKD] ≤ 21 ∧ 21 ≤ getScore [cardAS, cardKD] :=
  (getScore_spec [cardAS, cardKD]).2.1 21 ⟨[true], by decide⟩ (by decide)

/-- The `Player` of `player.py`: name, chip balance, hand, current bet and
the three terminal flags.  Chips and bets are `Int` (Python integers). -/
structure Player where
  name : String
  chips : Int
  hand : List Card
  current_bet : Int
  is_standing : Bool
  is_busted : Bool
  has_blackjack : Bool
deriving DecidableEq, Repr

/-- `Player.__init__(name, chips)`: empty hand, zero bet, all flags clear. -/
def Player.mkNew (name : String) (chips : Int) : Player :=
  ⟨name, chips, [], 0, false, false, false⟩

/-- `Player.reset_hand`: clear hand, bet and flags; chips untouched. -/
def Player.reset_hand (p : Player) : Player :=
  { p with hand := [], current_bet := 0,
           is_standing := false, is_busted := false, has_blackjack := false }

/-- `Player._check_status`: set `is_busted` when the score exceeds 21, else
set `has_blackjack` when the score is exactly 21 on a two-card hand. -/
def Player.check_status (p : Player) : Player :=
  let score := getScore p.hand
  if 21 < score then { p with is_busted := true }
  else if score = 21 ∧ p.hand.length = 2 then { p with has_blackjack := true }
  else p

/-- `Player.add_card`: append the card, then re-check status. -/
def Player.add_card (p : Player) (card : Card) : Player :=
  Player.check_status { p with hand := p.hand ++ [card] }

/-- `Player.place_bet`: reject non-positive amounts and amounts above the
balance; otherwise record the bet and debit the chips.  The Bool is the
Python return value. -/
def Player.place_bet (p : Player) (amount : Int) : Player × Bool :=
  if amount ≤ 0 ∨ p.chips < amount then (p, false)
  else ({ p with current_bet := amount, chips := p.chips - amount }, true)

/-- `Player.hit`: take one card (the source also returns `(is_busted, score)`,
both readable from the returned state). -/
def Player.hit (p : Player) (card : Card) : Player :=
  p.add_card card

/-- `Player.stand`. -/
def Player.stand (p : Player) : Player :=
  { p with is_standing := true }

/-- `Player.double_down`: when the balance covers the existing bet, debit it
again and double the bet; then take exactly one card and stand. -/
def Player.double_down (p : Player) (card : Card) : Player :=
  let p1 := if p.current_bet ≤ p.chips then
      { p with chips := p.chips - p.current_bet, current_bet := p.current_bet * 2 }
    else p
  let p2 := p1.add_card card
  { p2 with is_standing := true }

/-- The `Dealer` of `dealer.py`: a hand and the three flags, no chips. -/
structure Dealer where
  hand : List Card
  is_standing : Bool
  is_busted : Bool
  has_blackjack : Bool
deriving DecidableEq, Repr

/-- `Dealer.__init__`: empty hand, all flags clear. -/
def Dealer.mkNew : Dealer := ⟨[], false, false, false⟩

/-- `Dealer.reset_hand`. -/
def Dealer.reset_hand (_ : Dealer) : Dealer := Dealer.mkNew

/-- `Dealer._check_status` (same logic as the player's). -/
def Dealer.check_status (d : Dealer) : Dealer :=
  let score := getScore d.hand
  if 21 < score then { d with is_busted := true }
  else if score = 21 ∧ d.hand.length = 2 then { d with has_blackjack := true }
  else d

/-- `Dealer.add_card`. -/
def Dealer.add_card (d : Dealer) (card : Card) : Dealer :=
  Dealer.check_status { d with hand := d.hand ++ [card] }

/-- `Dealer.should_hit`: hit strictly below 17 (`get_score() < 17`). -/
def Dealer.should_hit (d : Dealer) : Bool :=
  decide (getScore d.hand < 17)

/-- The `while should_hit() and not is_busted` loop of `Dealer.play_turn`.
The cards coming out of the shoe are the stream entries from index `i` on
(`Deck.draw` never fails, see `Deck.draw_spec`).  The loop is written with
explicit fuel so that it stays kernel-computable; fuel 17 always suffices
because each drawn card raises the all-aces-low total `bustMin` by at least
one and the loop only continues while the score — hence `bustMin` — is
below 17 (`Dealer.playLoop_fuel_eq`). -/
def Dealer.playLoop (stream : Nat → Card) : Nat → Dealer → Nat → Dealer × Nat
  | 0, d, i => (d, i)
  | f + 1, d, i =>
    if d.should_hit && !d.is_busted then
      Dealer.playLoop stream f (d.add_card (stream i)) (i + 1)
    else (d, i)

/-- `Dealer.play_turn`: run the draw loop, then stand unless busted.  Returns
the final dealer state and the index of the next undrawn stream card. -/
def Dealer.play_turn (stream : Nat → Card) (d : Dealer) (i : Nat) : Dealer × Nat :=
  let r := Dealer.playLoop stream 17 d i
  (if r.1.is_busted then r.1 else { r.1 with is_standing := true }, r.2)

theorem Dealer.check_status_hand_eq (d : Dealer) : (Dealer.check_status d).hand = d.hand := by
  rcases d with ⟨h, s, b, bj⟩
  simp only [Dealer.check_status]
  split_ifs <;> rfl

theorem Dealer.add_card_hand_eq (d : Dealer) (c : Card) :
    (d.add_card c).hand = d.hand ++ [c] := by
  unfold Dealer.add_card
  rw [Dealer.check_status_hand_eq]

theorem Dealer.playLoop_no_hit (stream : Nat → Card) (d : Dealer) (i : Nat)
    (h : (d.should_hit && !d.is_busted) = false) :
    ∀ f, Dealer.playLoop stream f d i = (d, i) := by
  intro f
  cases f with
  | zero => rfl
  | succ f => simp [Dealer.playLoop, h]

theorem Dealer.playLoop_fuel_eq (stream : Nat → Card) :
    ∀ f g (d : Dealer) (i : Nat), 17 ≤ bustMin d.hand + f → 17 ≤ bustMin d.hand + g →
      Dealer.playLoop stream f d i = Dealer.playLoop stream g d i := by
  intro f
  induction f with
  | zero =>
    intro g d i hf _
    have hs : d.should_hit = false := by
      have h1 := bustMin_le_getScore d.hand
      simp only [Dealer.should_hit, decide_eq_false_iff_not, not_lt]
      omega
    rw [Dealer.playLoop_no_hit stream d i (by simp [hs]),
        Dealer.playLoop_no_hit stream d i (by simp [hs])]
  | succ f ih =>
    intro g d i hf hg
    by_cases h : (d.should_hit && !d.is_busted) = true
    · have hlt : getScore d.hand < 17 := by
        simp only [Dealer.should_hit, Bool.and_eq_true, decide_eq_true_eq] at h
        exact h.1
      have hbm : bustMin d.hand < 17 := by
        have := bustMin_le_getScore d.hand; omega
      match g with
      | 0 => omega
      | g + 1 =>
        simp only [Dealer.playLoop, h, if_true]
        have hgrow : bustMin d.hand + 1 ≤ bustMin ((d.add_card (stream i)).hand) := by
          rw [Dealer.add_card_hand_eq, bustMin_append_card]
          have := one_le_minValue (stream i)
          omega
        exact ih g (d.add_card (stream i)) (i + 1) (by omega) (by omega)
    · have h' : (d.should_hit && !d.is_busted) = false := by
        revert h; cases (d.should_hit && !d.is_busted) <;> simp
      rw [Dealer.playLoop_no_hit stream d i h', Dealer.playLoop_no_hit stream d i h']

theorem Dealer.playLoop_post (stream : Nat → Card) :
    ∀ f (d : Dealer) (i : Nat), 17 ≤ bustMin d.hand + f →
      (((Dealer.playLoop stream f d i).1.should_hit
        && !(Dealer.playLoop stream f d i).1.is_busted) = false) := by
  intro f
  induction f with
  | zero =>
    intro d i hf
    have h1 := bustMin_le_getScore d.hand
    have hs : d.should_hit = false := by
      simp only [Dealer.should_hit, decide_eq_false_iff_not, not_lt]
      omega
    simp [Dealer.playLoop, hs]
  | succ f ih =>
    intro d i hf
    by_cases h : (d.should_hit && !d.is_busted) = true
    · have hgrow : bustMin d.hand + 1 ≤ bustMin ((d.add_card (stream i)).hand) := by
        rw [Dealer.add_card_hand_eq, bustMin_append_card]
        have := one_le_minValue (stream i)
        omega
      simp only [Dealer.playLoop, h, if_true]
      exact ih (d.add_card (stream i)) (i + 1) (by omega)
    · have h' : (d.should_hit && !d.is_busted) = false := by
        revert h; cases (d.should_hit && !d.is_busted) <;> simp
      simp [Dealer.playLoop, h']

/-- Claim C3: `Dealer.play_turn` draws exactly when the current score is
strictly below 17 and the dealer is not busted (first conjunct: one draw step
is taken; second conjunct: otherwise the run stops immediately with no draw),
and afterwards the dealer is either busted, or has score at least 17 with
`is_standing` set (third conjunct).  Ace softness plays no role: the guard is
`get_score() < 17` on the fully resolved score. -/
theorem Dealer.play_turn_spec (stream : Nat → Card) (d : Dealer) (i : Nat) :
    ((getScore d.hand < 17 ∧ d.is_busted = false) →
      Dealer.play_turn stream d i = Dealer.play_turn stream (d.add_card (stream i)) (i + 1)) ∧
    (¬ (getScore d.hand < 17 ∧ d.is_busted = false) →
      Dealer.play_turn stream d i
        = ((if d.is_busted then d else { d with is_standing := true }), i)) ∧
    ((Dealer.play_turn stream d i).1.is_busted = true ∨
      (17 ≤ getScore ((Dealer.play_turn stream d i).1.hand) ∧
        (Dealer.play_turn stream d i).1.is_standing = true)) := by
  refine ⟨?_, ?_, ?_⟩
  · rintro ⟨h1, h2⟩
    have hguard : (d.should_hit && !d.is_busted) = true := by
      simp [Dealer.should_hit, h1, h2]
    have hstep : Dealer.playLoop stream 17 d i
        = Dealer.playLoop stream 16 (d.add_card (stream i)) (i + 1) := by
      rw [show (17 : Nat) = 16 + 1 from rfl]
      simp [Dealer.playLoop, hguard]
    have hbm1 : 1 ≤ bustMin ((d.add_card (stream i)).hand) := by
      rw [Dealer.add_card_hand_eq, bustMin_append_card]
      have := one_le_minValue (stream i)
      omega
    have hfe := Dealer.playLoop_fuel_eq stream 16 17 (d.add_card (stream i)) (i + 1)
      (by omega) (by omega)
    simp only [Dealer.play_turn]
    rw [hstep, hfe]
  · intro h
    have hguard : (d.should_hit && !d.is_busted) = false := by
      rcases Bool.eq_false_or_eq_true d.is_busted with hb | hb
      · simp [hb]
      · have h1 : ¬ getScore d.hand < 17 := fun hlt => h ⟨hlt, hb⟩
        simp [Dealer.should_hit, h1]
    simp [Dealer.play_turn, Dealer.playLoop_no_hit stream d i hguard]
  · have hpost := Dealer.playLoop_post stream 17 d i (by omega)
    simp only [Dealer.play_turn]
    rcases Bool.eq_false_or_eq_true ((Dealer.playLoop stream 17 d i).1.is_busted) with hb | hb
    · left
      simp [hb]
    · right
      have hs : (Dealer.playLoop stream 17 d i).1.should_hit = false := by
        rcases Bool.eq_false_or_eq_true ((Dealer.playLoop stream 17 d i).1.should_hit) with h | h
        · rw [h, hb] at hpost; simp at hpost
        · exact h
      simp only [Dealer.should_hit, decide_eq_false_iff_not, not_lt] at hs
      simp [hb, hs]

/-- A constant stream of 2♣ cards, used in witnesses. -/
def streamTwos : Nat → Card := fun _ => card2C

/-- Witness for C3: a dealer holding 10♥ 5♦ (score 15, not busted) draws, and
a dealer holding 10♥ K♦ (score 20) stops at once, standing. -/
theorem Dealer.play_turn_spec_witness :
    Dealer.play_turn streamTwos ⟨[cardTH, card5H], false, false, false⟩ 0
      = Dealer.play_turn streamTwos
          ((Dealer.add_card ⟨[cardTH, card5H], false, false, false⟩ (streamTwos 0))) 1 ∧
    Dealer.play_turn streamTwos ⟨[cardTH, cardKD], false, false, false⟩ 0
      = ((if (false : Bool) then (⟨[cardTH, cardKD], false, false, false⟩ : Dealer)
          else { (⟨[cardTH, cardKD], false, false, false⟩ : Dealer) with is_standing := true }), 0) :=
  ⟨(Dealer.play_turn_spec streamTwos ⟨[cardTH, card5H], false, false, false⟩ 0).1
      (by constructor <;> decide),
   (Dealer.play_turn_spec streamTwos ⟨[cardTH, cardKD], false, false, false⟩ 0).2.1
      (by intro hc; exact absurd hc.1 (by decide))⟩

@[simp] theorem Player.check_status_name (p : Player) : (p.check_status).name = p.name := by
  rcases p with ⟨n, c, h, b, s, bu, bj⟩
  simp only [Player.check_status]
  split_ifs <;> rfl

@[simp] theorem Player.check_status_chips (p : Player) : (p.check_status).chips = p.chips := by
  rcases p with ⟨n, c, h, b, s, bu, bj⟩
  simp only [Player.check_status]
  split_ifs <;> rfl

@[simp] theorem Player.check_status_hand (p : Player) : (p.check_status).hand = p.hand := by
  rcases p with ⟨n, c, h, b, s, bu, bj⟩
  simp only [Player.check_status]
  split_ifs <;> rfl

@[simp] theorem Player.check_status_bet (p : Player) :
    (p.check_status).current_bet = p.current_bet := by
  rcases p with ⟨n, c, h, b, s, bu, bj⟩
  simp only [Player.check_status]
  split_ifs <;> rfl

@[simp] theorem Player.check_status_standing (p : Player) :
    (p.check_status).is_standing = p.is_standing := by
  rcases p with ⟨n, c, h, b, s, bu, bj⟩
  simp only [Player.check_status]
  split_ifs <;> rfl

@[simp] theorem Player.check_status_busted (p : Player) :
    (p.check_status).is_busted = (p.is_busted || decide (21 < getScore p.hand)) := by
  rcases p with ⟨n, c, h, b, s, bu, bj⟩
  simp only [Player.check_status]
  split_ifs with h1 h2 <;> simp [h1]

@[simp] theorem Player.check_status_bj (p : Player) :
    (p.check_status).has_blackjack
      = (p.has_blackjack || decide (getScore p.hand = 21 ∧ p.hand.length = 2)) := by
  rcases p with ⟨n, c, h, b, s, bu, bj⟩
  simp only [Player.check_status]
  split_ifs with h1 h2
  · have hne : ¬ (getScore h = 21 ∧ h.length = 2) := by
      intro hc
      omega
  
    simp [hne]
  · simp [h2]
  · simp [h2]

@[simp] theorem Player.add_card_name (p : Player) (c : Card) :
    (p.add_card c).name = p.name := by
  simp [Player.add_card]

@[simp] theorem Player.add_card_chips (p : Player) (c : Card) :
    (p.add_card c).chips = p.chips := by
  simp [Player.add_card]

@[simp] theorem Player.add_card_hand (p : Player) (c : Card) :
    (p.add_card c).hand = p.hand ++ [c] := by
  simp [Player.add_card]

@[simp] theorem Player.add_card_bet (p : Player) (c : Card) :
    (p.add_card c).current_bet = p.current_bet := by
  simp [Player.add_card]

@[simp] theorem Player.add_card_standing (p : Player) (c : Card) :
    (p.add_card c).is_standing = p.is_standing := by
  simp [Player.add_card]

@[simp] theorem Player.add_card_busted (p : Player) (c : Card) :
    (p.add_card c).is_busted
      = (p.is_busted || decide (21 < getScore (p.hand ++ [c]))) := by
  simp [Player.add_card]

@[simp] theorem Player.add_card_bj (p : Player) (c : Card) :
    (p.add_card c).has_blackjack
      = (p.has_blackjack
          || decide (getScore (p.hand ++ [c]) = 21 ∧ (p.hand ++ [c]).length = 2)) := by
  simp [Player.add_card]

/-- Claim C8: `place_bet` rejects exactly when the amount is non-positive or
above the balance, leaving the player untouched; on success it debits the
chips and records the bet.  An all-in bet (amount = chips) succeeds. -/
theorem Player.place_bet_spec (p : Player) (amount : Int) :
    ((amount ≤ 0 ∨ p.chips < amount) → Player.place_bet p amount = (p, false)) ∧
    (0 < amount → amount ≤ p.chips →
      Player.place_bet p amount
        = ({ p with chips := p.chips - amount, current_bet := amount }, true)) := by
  constructor
  · intro h
    simp [Player.place_bet, h]
  · intro h1 h2
    have h3 : ¬ (amount ≤ 0 ∨ p.chips < amount) := by omega
    simp only [Player.place_bet, if_neg h3]

/-- Witness for C8: from a 50-chip balance, an all-in bet of 50 succeeds,
and a bet of 0 is rejected with no state change. -/
theorem Player.place_bet_spec_witness :
    Player.place_bet (Player.mkNew "A" 50) 50
      = ({ Player.mkNew "A" 50 with
            chips := (Player.mkNew "A" 50).chips - 50, current_bet := 50 }, true) ∧
    Player.place_bet (Player.mkNew "A" 50) 0 = (Player.mkNew "A" 50, false) :=
  ⟨(Player.place_bet_spec (Player.mkNew "A" 50) 50).2 (by decide) (by decide),
   (Player.place_bet_spec (Player.mkNew "A" 50) 0).1 (Or.inl (by decide))⟩

theorem bustMin_append (h l : List Card) : bustMin (h ++ l) = bustMin h + bustMin l := by
  simp [bustMin]

theorem getScore_gt21_mono (h l : List Card) :
    21 < getScore h → 21 < getScore (h ++ l) := by
  intro hgt
  rw [gt21_getScore_iff] at hgt ⊢
  rw [bustMin_append]
  omega

/-- The state of a hand-holding participant whose flags agree with the hand:
never standing, busted exactly when the score exceeds 21, and blackjack
exactly when the first two cards of the hand score 21. -/
def HandInv (p : Player) : Prop :=
  p.is_standing = false ∧
  (p.is_busted = true ↔ 21 < getScore p.hand) ∧
  (p.has_blackjack = true ↔ 2 ≤ p.hand.length ∧ getScore (p.hand.take 2) = 21)

theorem add_card_HandInv (p : Player) (c : Card) (h : HandInv p) :
    HandInv (p.add_card c) := by
  obtain ⟨hs, hb, hj⟩ := h
  refine ⟨by simp [hs], ?_, ?_⟩
  · simp only [Player.add_card_busted, Player.add_card_hand, Bool.or_eq_true,
      decide_eq_true_eq]
    constructor
    · rintro (h1 | h1)
      · exact getScore_gt21_mono p.hand [c] (hb.mp h1)
      · exact h1
    · intro h1; exact Or.inr h1
  · simp only [Player.add_card_bj, Player.add_card_hand, Bool.or_eq_true,
      decide_eq_true_eq]
    rcases Nat.lt_or_ge p.hand.length 2 with hlen | hlen
    · have hjf : p.has_blackjack = false := by
        rcases Bool.eq_false_or_eq_true p.has_blackjack with h' | h'
        · exact absurd (hj.mp h').1 (by omega)
        · exact h'
      interval_cases hl : p.hand.length
      · constructor
        · rintro (h1 | h1)
          · exact absurd h1 (by simp [hjf])
          · simp [hl] at h1
        · intro h1
          simp [hl] at h1
      · have htake : (p.hand ++ [c]).take 2 = p.hand ++ [c] := by
          apply List.take_of_length_le
          simp [hl]
        constructor
        · rintro (h1 | h1)
          · exact absurd h1 (by simp [hjf])
          · refine ⟨by simp [hl], ?_⟩
            rw [htake]
            exact h1.1
        · rintro ⟨h1, h2⟩
          right
          rw [htake] at h2
          exact ⟨h2, by simp [hl]⟩
    · have htake : (p.hand ++ [c]).take 2 = p.hand.take 2 := by
        rw [List.take_append_of_le_length hlen]
      constructor
      · rintro (h1 | h1)
        · obtain ⟨h2, h3⟩ := hj.mp h1
          refine ⟨by simp; omega, by rw [htake]; exact h3⟩
        · have : (p.hand ++ [c]).length = p.hand.length + 1 := by simp
          omega
      · rintro ⟨h1, h2⟩
        left
        apply hj.mpr
        rw [htake] at h2
        exact ⟨hlen, h2⟩

theorem foldl_add_card_HandInv (cs : List Card) :
    ∀ p : Player, HandInv p → HandInv (cs.foldl Player.add_card p) := by
  induction cs with
  | nil => intro p h; exact h
  | cons c cs ih =>
    intro p h
    exact ih (p.add_card c) (add_card_HandInv p c h)

theorem foldl_add_card_hand (cs : List Card) :
    ∀ p : Player, (cs.foldl Player.add_card p).hand = p.hand ++ cs := by
  induction cs with
  | nil => intro p; simp
  | cons c cs ih =>
    intro p
    rw [List.foldl_cons, ih]
    simp

/-- A participant built by resetting the hand and then receiving a given
sequence of cards through `add_card` only — the setting of claim C6. -/
def Player.deal (p : Player) (cs : List Card) : Player :=
  cs.foldl Player.add_card p.reset_hand

theorem reset_hand_HandInv (p : Player) : HandInv p.reset_hand := by
  refine ⟨rfl, ?_, ?_⟩ <;> simp [Player.reset_hand, getScore, aceCount, adjustAces]

/-- Counterexample to claim C6 as stated: the participant dealt A♠, K♦, 5♥
through `add_card` (from a reset hand) has `has_blackjack = true` — the flag
was set at two cards and `_check_status` never clears it — yet the hand now
has 3 cards and scores 16, so the claimed equivalence with "exactly 2 cards
and score 21" fails. -/
theorem has_blackjack_counterexample :
    ¬ ( ((Player.deal (Player.mkNew "A" 100) [cardAS, cardKD, card5H]).has_blackjack = true)
        ↔ ((Player.deal (Player.mkNew "A" 100) [cardAS, cardKD, card5H]).hand.length = 2 ∧
            getScore (Player.deal (Player.mkNew "A" 100) [cardAS, cardKD, card5H]).hand = 21) ) := by
  decide

/-- Claim C6 (amended): for a participant that starts from a reset hand and
receives cards only through `add_card`, `has_blackjack` is true iff the hand
has at least two cards and its FIRST TWO cards score exactly 21 (so on hands
of at most two cards the original equivalence holds, and a 21 first reached
with three or more cards never sets the flag — but the flag set at two cards
persists if more cards are added later); `is_busted` is true iff the score
exceeds 21, and `add_card` never sets `is_standing`. -/
theorem deal_flags_spec (p0 : Player) (cs : List Card) :
    (Player.deal p0 cs).hand = cs ∧
    (Player.deal p0 cs).is_standing = false ∧
    ((Player.deal p0 cs).is_busted = true ↔ 21 < getScore cs) ∧
    ((Player.deal p0 cs).has_blackjack = true
      ↔ 2 ≤ cs.length ∧ getScore (cs.take 2) = 21) := by
  have hhand : (Player.deal p0 cs).hand = cs := by
    unfold Player.deal
    rw [foldl_add_card_hand]
    simp [Player.reset_hand]
  have hinv := foldl_add_card_HandInv cs p0.reset_hand (reset_hand_HandInv p0)
  obtain ⟨h1, h2, h3⟩ := hinv
  rw [Player.deal] at hhand ⊢
  rw [hhand] at h2 h3
  exact ⟨hhand, h1, h2, h3⟩

/-- `Deck.SUITS`, in source order. -/
def Deck.SUITS : List Suit := [Suit.hearts, Suit.diamonds, Suit.clubs, Suit.spades]

/-- `Deck.RANKS`, in source order. -/
def Deck.RANKS : List Rank :=
  [Rank.two, Rank.three, Rank.four, Rank.five, Rank.six, Rank.seven, Rank.eight,
   Rank.nine, Rank.ten, Rank.jack, Rank.queen, Rank.king, Rank.ace]

/-- The shoe of `deck.py`: the deck count and the ordered remaining cards. -/
structure Deck where
  num_decks : Nat
  cards : List Card
deriving DecidableEq, Repr

/-- One 52-card deck in the construction order of `Deck.reset`. -/
def oneDeck : List Card := Deck.SUITS.flatMap (fun s => Deck.RANKS.map (fun r => ⟨s, r⟩))

/-- The unshuffled content rebuilt by `Deck.reset`:
`[Card(suit, rank) for _ in range(num_decks) for suit in SUITS for rank in RANKS]`. -/
def fullShoe : Nat → List Card
  | 0 => []
  | n + 1 => oneDeck ++ fullShoe n

/-- `Deck.reset`: rebuild the full multiset and shuffle.  `random.shuffle`
permutes the list in place and is modelled by an explicit parameter that is
assumed (in the theorems) to produce a permutation. -/
def Deck.reset (shuffle : List Card → List Card) (d : Deck) : Deck :=
  { d with cards := shuffle (fullShoe d.num_decks) }

/-- `Deck.draw`: `if not self.cards: self.reset()` then `self.cards.pop()`.
Python `pop()` removes the LAST element; on a still-empty list it raises,
hence the `Option` result. -/
def Deck.draw (shuffle : List Card → List Card) (d : Deck) : Option (Card × Deck) :=
  let d1 := if d.cards.isEmpty then d.reset shuffle else d
  match d1.cards.getLast? with
  | none => none
  | some c => some (c, { d1 with cards := d1.cards.dropLast })

/-- `Deck.cards_remaining`. -/
def Deck.cards_remaining (d : Deck) : Nat := d.cards.length

theorem oneDeck_length : oneDeck.length = 52 := by decide

theorem fullShoe_length (n : Nat) : (fullShoe n).length = 52 * n := by
  induction n with
  | zero => rfl
  | succ n ih =>
    show (oneDeck ++ fullShoe n).length = 52 * (n + 1)
    rw [List.length_append, oneDeck_length, ih]
    ring

/-- Claim C9: for a shoe built from at least one deck, `draw` always returns
a card; it removes exactly one card from the end of the remaining sequence,
and when the shoe is empty at the moment of the draw it is first rebuilt as a
fresh full `num_decks × 52` multiset (a permutation of the unshuffled full
shoe) from which the draw then completes. -/
theorem Deck.draw_spec (shuffle : List Card → List Card)
    (hs : ∀ l, (shuffle l).Perm l) (d : Deck) (hd : 1 ≤ d.num_decks) :
    ∃ c d2, Deck.draw shuffle d = some (c, d2) ∧ d2.num_decks = d.num_decks ∧
      (d.cards ≠ [] → d2.cards ++ [c] = d.cards) ∧
      (d.cards = [] →
        (d2.cards ++ [c]).Perm (fullShoe d.num_decks) ∧
        (d2.cards ++ [c]).length = 52 * d.num_decks) := by
  by_cases hne : d.cards = []
  · have hperm : (shuffle (fullShoe d.num_decks)).Perm (fullShoe d.num_decks) :=
      hs (fullShoe d.num_decks)
    have hlen : (shuffle (fullShoe d.num_decks)).length = 52 * d.num_decks := by
      rw [hperm.length_eq, fullShoe_length]
    have hnonempty : shuffle (fullShoe d.num_decks) ≠ [] := by
      intro hmt
      rw [hmt] at hlen
      simp at hlen
      omega
    obtain ⟨c, hc⟩ : ∃ c, (shuffle (fullShoe d.num_decks)).getLast? = some c := by
      rcases hx : (shuffle (fullShoe d.num_decks)).getLast? with _ | c
      · exact absurd (List.getLast?_eq_none_iff.mp hx) hnonempty
      · exact ⟨c, rfl⟩
    refine ⟨c, { d with cards := (shuffle (fullShoe d.num_decks)).dropLast }, ?_, rfl, ?_, ?_⟩
    · simp [Deck.draw, hne, Deck.reset, hc]
    · intro h; exact absurd hne h
    · intro _
      have hcl : (shuffle (fullShoe d.num_decks)).getLast hnonempty = c := by
        rwa [List.getLast?_eq_getLast _ hnonempty, Option.some_inj] at hc
      have hrest : (shuffle (fullShoe d.num_decks)).dropLast ++ [c]
          = shuffle (fullShoe d.num_decks) := by
        conv_lhs => rw [← hcl]
        exact List.dropLast_append_getLast hnonempty
      constructor
      · rw [hrest]; exact hperm
      · rw [hrest, hlen]
  · have hnonempty : d.cards ≠ [] := hne
    obtain ⟨c, hc⟩ : ∃ c, d.cards.getLast? = some c := by
      rcases hx : d.cards.getLast? with _ | c
      · exact absurd (List.getLast?_eq_none_iff.mp hx) hnonempty
      · exact ⟨c, rfl⟩
    refine ⟨c, { d with cards := d.cards.dropLast }, ?_, rfl, ?_, ?_⟩
    · simp [Deck.draw, List.isEmpty_iff, hne, hc]
    · intro _
      have := List.dropLast_append_getLast hnonempty
      have hcl : d.cards.getLast hnonempty = c := by
        rwa [List.getLast?_eq_getLast _ hnonempty, Option.some_inj] at hc
      rw [← hcl]
      exact this
    · intro h; exact absurd h hne

/-- The identity shuffle, used in the C9 witness. -/
def idShuffle : List Card → List Card := fun l => l

/-- Witness for C9: drawing from an empty one-deck shoe succeeds after the
automatic rebuild. -/
theorem Deck.draw_spec_witness :
    ∃ c d2, Deck.draw idShuffle ⟨1, []⟩ = some (c, d2) ∧ d2.num_decks = 1 ∧
      (([] : List Card) ≠ [] → d2.cards ++ [c] = []) ∧
      (([] : List Card) = [] →
        (d2.cards ++ [c]).Perm (fullShoe 1) ∧ (d2.cards ++ [c]).length = 52 * 1) :=
  Deck.draw_spec idShuffle (fun l => List.Perm.refl l) ⟨1, []⟩ (by decide)


/-- ASCII lower-casing of one character (models Python `str.lower` on the
ASCII names the engine handles), written so the kernel can evaluate it. -/
def lowerChar (c : Char) : Char :=
  if 65 ≤ c.toNat ∧ c.toNat ≤ 90 then Char.ofNat (c.toNat + 32) else c

/-- `str.lower()`. -/
def pyLower (s : String) : String := ⟨s.data.map lowerChar⟩

/-- Whitespace as stripped by Python `str.strip()`. -/
def isSpaceChar (c : Char) : Bool := c = ' ' ∨ c = '\t' ∨ c = '\n' ∨ c = '\r'

/-- `str.strip()`. -/
def pyStrip (s : String) : String :=
  ⟨((s.data.dropWhile isSpaceChar).reverse.dropWhile isSpaceChar).reverse⟩

/-- `GamePhase` of `game_multiplayer.py`. -/
inductive GamePhase
  | lobby | betting | dealing | player_turn | dealer_turn | complete
deriving DecidableEq, Repr

/-- `GameResult` of `game_multiplayer.py`. -/
inductive GameResult
  | player_blackjack | player_win | dealer_win | push | player_bust
deriving DecidableEq, Repr

/-- One entry of the `PlayerManager` registry: the normalized key
(`name.lower().strip()`), the display name from the first join, and the
persistent chip balance.  In the source the registry stores the live `Player`
objects (aliased into the active list); here chip balances are written back
whenever a player leaves the seating, which the engine's action surface
cannot distinguish from aliasing because no action reads a seated player's
registry entry. -/
structure RegEntry where
  key : String
  pname : String
  chips : Int
deriving DecidableEq, Repr

/-- `PlayerManager.DEFAULT_CHIPS`. -/
def DEFAULT_CHIPS : Int := 100

/-- `PlayerManager.get_or_create_player`: an existing (case-insensitive,
trimmed) name keeps its balance and display name with round state cleared; a
new name starts with the default balance. -/
def getOrCreatePlayer (reg : List RegEntry) (name : String) : Player × List RegEntry :=
  let key := pyStrip (pyLower name)
  match reg.find? (fun e => e.key == key) with
  | some e => (Player.mkNew e.pname e.chips, reg)
  | none => (Player.mkNew (pyStrip name) DEFAULT_CHIPS,
             reg ++ [⟨key, pyStrip name, DEFAULT_CHIPS⟩])

/-- Write a departing player's chips back into the registry (models the
source's aliasing of registry entries and seated players). -/
def syncChips (reg : List RegEntry) (p : Player) : List RegEntry :=
  reg.map (fun e => if e.key == pyLower p.name then { e with chips := p.chips } else e)

/-- `player.name in self.results` on the results dictionary. -/
def resolved (results : List (String × GameResult)) (name : String) : Bool :=
  results.any (fun e => e.1 == name)

/-- `self.results[name]` lookup. -/
def resLookup (results : List (String × GameResult)) (name : String) : Option GameResult :=
  (results.find? (fun e => e.1 == name)).map (fun e => e.2)

/-- The `MultiPlayerBlackjack` table state.  The shoe is modelled by the
stream of cards it will produce (justified by `Deck.draw_spec`: with at
least one deck a draw never fails) together with `drawIdx`, the index of the
next card to come out; status messages are presentation only and elided. -/
structure MultiPlayerBlackjack where
  dealer : Dealer
  registry : List RegEntry
  active_players : List Player
  current_player_idx : Nat
  phase : GamePhase
  results : List (String × GameResult)
  drawIdx : Nat
deriving DecidableEq, Repr

/-- `MultiPlayerBlackjack.__init__`. -/
def MultiPlayerBlackjack.mkNew : MultiPlayerBlackjack :=
  ⟨Dealer.mkNew, [], [], 0, GamePhase.lobby, [], 0⟩

/-- The `current_player` property: the active player at the current index,
`none` when the list is empty or the index is out of range. -/
def MultiPlayerBlackjack.current_player (g : MultiPlayerBlackjack) : Option Player :=
  g.active_players[g.current_player_idx]?

/-- `add_player`: allowed in LOBBY/BETTING for a non-empty, not currently
seated name whose registry balance is positive. -/
def MultiPlayerBlackjack.add_player (g : MultiPlayerBlackjack) (name : String) :
    MultiPlayerBlackjack × Bool :=
  if g.phase ≠ GamePhase.lobby ∧ g.phase ≠ GamePhase.betting then (g, false)
  else
    let name1 := pyStrip name
    if name1 = "" then (g, false)
    else if g.active_players.any (fun p => pyLower p.name == pyLower name1) then (g, false)
    else
      let pr := getOrCreatePlayer g.registry name1
      if pr.1.chips ≤ 0 then ({ g with registry := pr.2 }, false)
      else ({ g with registry := pr.2,
                     active_players := g.active_players ++ [pr.1] }, true)

/-- `remove_player`: drop the first seated player matching the name
(case-insensitive); allowed in LOBBY/BETTING. -/
def MultiPlayerBlackjack.remove_player (g : MultiPlayerBlackjack) (name : String) :
    MultiPlayerBlackjack × Bool :=
  if g.phase ≠ GamePhase.lobby ∧ g.phase ≠ GamePhase.betting then (g, false)
  else
    match g.active_players.find? (fun p => pyLower p.name == pyStrip (pyLower name)) with
    | none => (g, false)
    | some p =>
      ({ g with
          active_players :=
            g.active_players.eraseP (fun q => pyLower q.name == pyStrip (pyLower name)),
          registry := syncChips g.registry p }, true)

/-- `start_betting`: from LOBBY with at least one seated player, reset every
hand and the dealer, clear results, enter BETTING. -/
def MultiPlayerBlackjack.start_betting (g : MultiPlayerBlackjack) :
    MultiPlayerBlackjack × Bool :=
  if g.phase ≠ GamePhase.lobby then (g, false)
  else if g.active_players.length = 0 then (g, false)
  else ({ g with active_players := g.active_players.map Player.reset_hand,
                 dealer := g.dealer.reset_hand, results := [],
                 phase := GamePhase.betting }, true)

/-- `int(current_bet * 2.5)` of `_check_initial_blackjacks`: for the
non-negative bets the engine reaches (all far below 2^51, where the float
product is exact) this is the floor of 2.5 times the bet. -/
def blackjackWinnings (bet : Int) : Int := 5 * bet / 2

/-- The per-player body of `_check_initial_blackjacks`: a natural against a
dealer natural pushes (bet returned); a natural alone pays
`int(bet * 2.5)`; no natural against a dealer natural loses; the resolved
player is marked standing. -/
def resolveInitial (dealer_blackjack : Bool) (p : Player) : Player × Option GameResult :=
  if p.has_blackjack then
    if dealer_blackjack then
      ({ p with chips := p.chips + p.current_bet, is_standing := true },
        some GameResult.push)
    else
      ({ p with chips := p.chips + blackjackWinnings p.current_bet, is_standing := true },
        some GameResult.player_blackjack)
  else if dealer_blackjack then
    ({ p with is_standing := true }, some GameResult.dealer_win)
  else (p, none)

/-- `_check_initial_blackjacks`, run once right after dealing (results are
empty there, so appending to the association list models the dict write). -/
def MultiPlayerBlackjack.check_initial_blackjacks (g : MultiPlayerBlackjack) :
    MultiPlayerBlackjack :=
  let dbj := g.dealer.has_blackjack
  let z := g.active_players.foldl
    (fun (acc : List Player × List (String × GameResult)) p =>
      let pr := resolveInitial dbj p
      (acc.1 ++ [pr.1],
       match pr.2 with
       | some r => acc.2 ++ [(p.name, r)]
       | none => acc.2))
    ([], g.results)
  { g with active_players := z.1, results := z.2 }

/-- The per-player body of `_determine_winners`: dealer bust or a higher
player score credits twice the bet; a higher dealer score credits nothing;
a tie returns the bet. -/
def settlePlayer (dealer_score : Nat) (dealer_busted : Bool) (p : Player) :
    Player × GameResult :=
  let player_score := getScore p.hand
  if dealer_busted then
    ({ p with chips := p.chips + p.current_bet * 2 }, GameResult.player_win)
  else if dealer_score < player_score then
    ({ p with chips := p.chips + p.current_bet * 2 }, GameResult.player_win)
  else if player_score < dealer_score then
    (p, GameResult.dealer_win)
  else
    ({ p with chips := p.chips + p.current_bet }, GameResult.push)

/-- The loop body of `_determine_winners`: skip players already in the
results mapping, settle the rest and record their result. -/
def settleStep (dealer_score : Nat) (dealer_busted : Bool)
    (acc : List Player × List (String × GameResult)) (p : Player) :
    List Player × List (String × GameResult) :=
  if resolved acc.2 p.name then (acc.1 ++ [p], acc.2)
  else
    let pr := settlePlayer dealer_score dealer_busted p
    (acc.1 ++ [pr.1], acc.2 ++ [(p.name, pr.2)])

/-- `_determine_winners`: settle every active player without a recorded
result, then COMPLETE. -/
def MultiPlayerBlackjack.determine_winners (g : MultiPlayerBlackjack) :
    MultiPlayerBlackjack :=
  let dealer_score := getScore g.dealer.hand
  let dealer_busted := g.dealer.is_busted
  let z := g.active_players.foldl (settleStep dealer_score dealer_busted) ([], g.results)
  { g with active_players := z.1, results := z.2, phase := GamePhase.complete }

/-- `_play_dealer_turn`: enter DEALER_TURN, let the dealer draw only when
some player is still unresolved, then settle. -/
def MultiPlayerBlackjack.play_dealer_turn (stream : Nat → Card)
    (g : MultiPlayerBlackjack) : MultiPlayerBlackjack :=
  let g1 := { g with phase := GamePhase.dealer_turn }
  let any_remaining := g1.active_players.any (fun p => !(resolved g1.results p.name))
  let g2 := if any_remaining then
      let r := Dealer.play_turn stream g1.dealer g1.drawIdx
      { g1 with dealer := r.1, drawIdx := r.2 }
    else g1
  MultiPlayerBlackjack.determine_winners g2

/-- The scan guard of `_advance_to_next_active_player`: a player can still
act when not standing, not busted, and without a recorded result. -/
def eligibleB (results : List (String × GameResult)) (p : Player) : Bool :=
  !p.is_standing && !p.is_busted && !(resolved results p.name)

/-- The `while` loop of `_advance_to_next_active_player`, with fuel equal to
the number of not-yet-scanned seats (`advance_to_next_active_player` passes
exactly `length - idx`, and each iteration raises `idx` by one, so the fuel
never runs out before the scan does). -/
def MultiPlayerBlackjack.advanceLoop (stream : Nat → Card) :
    Nat → MultiPlayerBlackjack → MultiPlayerBlackjack
  | 0, g => MultiPlayerBlackjack.play_dealer_turn stream g
  | k + 1, g =>
    match g.active_players[g.current_player_idx]? with
    | some p =>
      if eligibleB g.results p then
        { g with phase := GamePhase.player_turn }
      else
        MultiPlayerBlackjack.advanceLoop stream k
          { g with current_player_idx := g.current_player_idx + 1 }
    | none => MultiPlayerBlackjack.play_dealer_turn stream g

/-- `_advance_to_next_active_player`: scan forward from the current index to
the first player who is neither standing nor busted nor resolved; set
PLAYER_TURN there, or fall through to the dealer's turn. -/
def MultiPlayerBlackjack.advance_to_next_active_player (stream : Nat → Card)
    (g : MultiPlayerBlackjack) : MultiPlayerBlackjack :=
  MultiPlayerBlackjack.advanceLoop stream
    (g.active_players.length - g.current_player_idx) g

/-- One pass of the dealing loop body in `_start_dealing`: each active player
draws one card in seating order, then the dealer draws one. -/
def dealRound (stream : Nat → Card) (g : MultiPlayerBlackjack) : MultiPlayerBlackjack :=
  let z := g.active_players.foldl
    (fun (acc : List Player × Nat) p => (acc.1 ++ [p.add_card (stream acc.2)], acc.2 + 1))
    ([], g.drawIdx)
  { g with active_players := z.1,
           dealer := g.dealer.add_card (stream z.2),
           drawIdx := z.2 + 1 }

/-- `_start_dealing`: two dealing passes, initial blackjack resolution,
reset the turn index and advance. -/
def MultiPlayerBlackjack.start_dealing (stream : Nat → Card)
    (g : MultiPlayerBlackjack) : MultiPlayerBlackjack :=
  let g1 := { g with phase := GamePhase.dealing }
  let g2 := dealRound stream (dealRound stream g1)
  let g3 := MultiPlayerBlackjack.check_initial_blackjacks g2
  let g4 := { g3 with current_player_idx := 0 }
  MultiPlayerBlackjack.advance_to_next_active_player stream g4

/-- `place_bet` (engine): in BETTING, for a seated player who has not yet
bet, apply `Player.place_bet`; once every seated player has bet, dealing
starts immediately. -/
def MultiPlayerBlackjack.place_bet (stream : Nat → Card) (g : MultiPlayerBlackjack)
    (player_name : String) (amount : Int) : MultiPlayerBlackjack × Bool :=
  if g.phase ≠ GamePhase.betting then (g, false)
  else
    match g.active_players.findIdx?
        (fun p => pyLower p.name == pyStrip (pyLower player_name)) with
    | none => (g, false)
    | some j =>
      match g.active_players[j]? with
      | none => (g, false)
      | some p =>
        if 0 < p.current_bet then (g, false)
        else
          let pr := Player.place_bet p amount
          if pr.2 = false then (g, false)
          else
            let g1 := { g with active_players := g.active_players.set j pr.1 }
            if g1.active_players.all (fun q => decide (0 < q.current_bet)) then
              (MultiPlayerBlackjack.start_dealing stream g1, true)
            else (g1, true)

/-- `hit` (engine): in PLAYER_TURN, the named current player draws one card;
a bust records `player_bust` and advances the rotation, otherwise the same
player stays current.  (When the current player is `None` the source would
raise while formatting its rejection message; that state is unreachable, see
the C7 theorem.) -/
def MultiPlayerBlackjack.hit (stream : Nat → Card) (g : MultiPlayerBlackjack)
    (player_name : String) : MultiPlayerBlackjack × Bool :=
  if g.phase ≠ GamePhase.player_turn then (g, false)
  else
    match g.active_players[g.current_player_idx]? with
    | none => (g, false)
    | some p =>
      if pyLower p.name ≠ pyStrip (pyLower player_name) then (g, false)
      else
        let card := stream g.drawIdx
        let p1 := Player.hit p card
        let g1 := { g with
            active_players := g.active_players.set g.current_player_idx p1,
            drawIdx := g.drawIdx + 1 }
        if p1.is_busted then
          let g2 := { g1 with
              results := g1.results ++ [(p1.name, GameResult.player_bust)],
              current_player_idx := g1.current_player_idx + 1 }
          (MultiPlayerBlackjack.advance_to_next_active_player stream g2, true)
        else (g1, true)

/-- `stand` (engine): the named current player stands and the rotation
advances. -/
def MultiPlayerBlackjack.stand (stream : Nat → Card) (g : MultiPlayerBlackjack)
    (player_name : String) : MultiPlayerBlackjack × Bool :=
  if g.phase ≠ GamePhase.player_turn then (g, false)
  else
    match g.active_players[g.current_player_idx]? with
    | none => (g, false)
    | some p =>
      if pyLower p.name ≠ pyStrip (pyLower player_name) then (g, false)
      else
        let p1 := Player.stand p
        let g1 := { g with
            active_players := g.active_players.set g.current_player_idx p1,
            current_player_idx := g.current_player_idx + 1 }
        (MultiPlayerBlackjack.advance_to_next_active_player stream g1, true)

/-- `double_down` (engine): only on a two-card hand with enough chips to
cover the bet again; one card, implicit stand, rotation advances. -/
def MultiPlayerBlackjack.double_down (stream : Nat → Card) (g : MultiPlayerBlackjack)
    (player_name : String) : MultiPlayerBlackjack × Bool :=
  if g.phase ≠ GamePhase.player_turn then (g, false)
  else
    match g.active_players[g.current_player_idx]? with
    | none => (g, false)
    | some p =>
      if pyLower p.name ≠ pyStrip (pyLower player_name) then (g, false)
      else if p.hand.length ≠ 2 then (g, false)
      else if p.chips < p.current_bet then (g, false)
      else
        let card := stream g.drawIdx
        let p1 := Player.double_down p card
        let g1 := { g with
            active_players := g.active_players.set g.current_player_idx p1,
            drawIdx := g.drawIdx + 1 }
        let g2 := if p1.is_busted then
            { g1 with results := g1.results ++ [(p1.name, GameResult.player_bust)] }
          else g1
        let g3 := { g2 with current_player_idx := g2.current_player_idx + 1 }
        (MultiPlayerBlackjack.advance_to_next_active_player stream g3, true)

/-- `new_round`: from COMPLETE, drop broke players, reset hands and results,
back to BETTING (or LOBBY when nobody is left). -/
def MultiPlayerBlackjack.new_round (g : MultiPlayerBlackjack) :
    MultiPlayerBlackjack × Bool :=
  if g.phase ≠ GamePhase.complete then (g, false)
  else
    let dropped := g.active_players.filter (fun p => decide (p.chips ≤ 0))
    let reg1 := dropped.foldl syncChips g.registry
    let kept := (g.active_players.filter (fun p => decide (0 < p.chips))).map
      Player.reset_hand
    let g1 := { g with registry := reg1, active_players := kept,
                       dealer := g.dealer.reset_hand, results := [],
                       current_player_idx := 0 }
    if kept.isEmpty then ({ g1 with phase := GamePhase.lobby }, true)
    else ({ g1 with phase := GamePhase.betting }, true)

/-- `back_to_lobby`: from COMPLETE, clear the seating and results and return
to LOBBY (the turn index is NOT reset by the source). -/
def MultiPlayerBlackjack.back_to_lobby (g : MultiPlayerBlackjack) :
    MultiPlayerBlackjack × Bool :=
  if g.phase ≠ GamePhase.complete then (g, false)
  else
    let reg1 := g.active_players.foldl syncChips g.registry
    ({ g with registry := reg1, active_players := [], results := [],
              phase := GamePhase.lobby }, true)

/-- One externally triggered engine action.  The card stream is
per-invocation (fresh randomness each call). -/
inductive Step : MultiPlayerBlackjack → MultiPlayerBlackjack → Prop
  | add_player (g : MultiPlayerBlackjack) (name : String) :
      Step g (MultiPlayerBlackjack.add_player g name).1
  | remove_player (g : MultiPlayerBlackjack) (name : String) :
      Step g (MultiPlayerBlackjack.remove_player g name).1
  | start_betting (g : MultiPlayerBlackjack) :
      Step g (MultiPlayerBlackjack.start_betting g).1
  | place_bet (g : MultiPlayerBlackjack) (stream : Nat → Card)
      (name : String) (amount : Int) :
      Step g (MultiPlayerBlackjack.place_bet stream g name amount).1
  | hit (g : MultiPlayerBlackjack) (stream : Nat → Card) (name : String) :
      Step g (MultiPlayerBlackjack.hit stream g name).1
  | stand (g : MultiPlayerBlackjack) (stream : Nat → Card) (name : String) :
      Step g (MultiPlayerBlackjack.stand stream g name).1
  | double_down (g : MultiPlayerBlackjack) (stream : Nat → Card) (name : String) :
      Step g (MultiPlayerBlackjack.double_down stream g name).1
  | new_round (g : MultiPlayerBlackjack) :
      Step g (MultiPlayerBlackjack.new_round g).1
  | back_to_lobby (g : MultiPlayerBlackjack) :
      Step g (MultiPlayerBlackjack.back_to_lobby g).1

/-- States the engine can reach from a fresh table. -/
inductive Reachable : MultiPlayerBlackjack → Prop
  | init : Reachable MultiPlayerBlackjack.mkNew
  | step (g g2 : MultiPlayerBlackjack) : Reachable g → Step g g2 → Reachable g2

/-- Claim C5: when the current player's chips are strictly below their bet
(e.g. after an all-in bet) or their hand does not have exactly two cards (in
particular more than two), `double_down` returns failure and the whole game
state — chips, bet, hand, flags, phase, current player, results — is
completely unchanged, so the player can still hit or stand. -/
theorem MultiPlayerBlackjack.double_down_reject (stream : Nat → Card)
    (g : MultiPlayerBlackjack) (player_name : String) (p : Player)
    (hphase : g.phase = GamePhase.player_turn)
    (hcur : g.current_player = some p)
    (hname : pyLower p.name = pyStrip (pyLower player_name))
    (hcond : p.chips < p.current_bet ∨ 2 < p.hand.length) :
    MultiPlayerBlackjack.double_down stream g player_name = (g, false) := by
  unfold MultiPlayerBlackjack.current_player at hcur
  unfold MultiPlayerBlackjack.double_down
  rw [hcur, hphase]
  simp only [ne_eq, not_true_eq_false, if_false, reduceIte, hname, not_false_eq_true]
  by_cases hlen : p.hand.length = 2
  · have hchips : p.chips < p.current_bet := by
      rcases hcond with h | h
      · exact h
      · omega
    simp [hlen, hchips]
  · simp [hlen]

/-- The all-in player of the C5 witness: 0 chips left, bet 11, two cards. -/
def pAllIn : Player := ⟨"Alice", 0, [cardTH, card5H], 11, false, false, false⟩

/-- The C5 witness table: Alice is current in PLAYER_TURN. -/
def gAllIn : MultiPlayerBlackjack :=
  ⟨Dealer.mkNew, [], [pAllIn], 0, GamePhase.player_turn, [], 0⟩

/-- Witness for C5: the all-in player's `double_down` is rejected and the
state is returned untouched. -/
theorem MultiPlayerBlackjack.double_down_reject_witness :
    MultiPlayerBlackjack.double_down streamTwos gAllIn "Alice" = (gAllIn, false) :=
  MultiPlayerBlackjack.double_down_reject streamTwos gAllIn "Alice" pAllIn
    (by decide) (by decide) (by decide) (Or.inl (by decide))

/-- Claim C10: a hit that brings the current player's hand to exactly 21
does not advance the turn: the call succeeds, only that player's hand (plus
the draw pointer) changes, no result is recorded, the phase stays
PLAYER_TURN with the same current index, and the updated player — still
neither standing nor busted — remains the current player, able to hit or
stand again.  Rotation advances only on bust (here), stand, or double down. -/
theorem MultiPlayerBlackjack.hit_to_21_spec (stream : Nat → Card)
    (g : MultiPlayerBlackjack) (player_name : String) (p : Player)
    (hphase : g.phase = GamePhase.player_turn)
    (hcur : g.current_player = some p)
    (hname : pyLower p.name = pyStrip (pyLower player_name))
    (hnb : p.is_busted = false)
    (hscore : getScore (p.hand ++ [stream g.drawIdx]) = 21) :
    MultiPlayerBlackjack.hit stream g player_name
      = ({ g with
            active_players :=
              g.active_players.set g.current_player_idx (Player.hit p (stream g.drawIdx)),
            drawIdx := g.drawIdx + 1 }, true) ∧
    (MultiPlayerBlackjack.hit stream g player_name).1.phase = GamePhase.player_turn ∧
    (MultiPlayerBlackjack.hit stream g player_name).1.current_player_idx
      = g.current_player_idx ∧
    (MultiPlayerBlackjack.hit stream g player_name).1.results = g.results ∧
    (MultiPlayerBlackjack.hit stream g player_name).1.current_player
      = some (Player.hit p (stream g.drawIdx)) ∧
    (Player.hit p (stream g.drawIdx)).is_standing = p.is_standing ∧
    (Player.hit p (stream g.drawIdx)).is_busted = false := by
  unfold MultiPlayerBlackjack.current_player at hcur
  have hbust : (Player.hit p (stream g.drawIdx)).is_busted = false := by
    simp [Player.hit, hnb, hscore]
  have heq : MultiPlayerBlackjack.hit stream g player_name
      = ({ g with
            active_players :=
              g.active_players.set g.current_player_idx (Player.hit p (stream g.drawIdx)),
            drawIdx := g.drawIdx + 1 }, true) := by
    unfold MultiPlayerBlackjack.hit
    rw [hcur, hphase]
    simp only [ne_eq, not_true_eq_false, if_false, reduceIte, hname, not_false_eq_true,
      hbust]
    simp
  have hlt : g.current_player_idx < g.active_players.length := by
    rcases List.getElem?_eq_some_iff.mp hcur with ⟨h, _⟩
    exact h
  refine ⟨heq, by rw [heq]; exact hphase, by rw [heq], by rw [heq], ?_, by simp [Player.hit], hbust⟩
  rw [heq]
  show (g.active_players.set g.current_player_idx
      (Player.hit p (stream g.drawIdx)))[g.current_player_idx]?
    = some (Player.hit p (stream g.drawIdx))
  exact List.getElem?_set_self hlt

/-- The player of the C10 witness: 10♥ 9♦ (19), one 2♣ away from 21. -/
def pNineteen : Player := ⟨"Bob", 50, [cardTH, card9D], 10, false, false, false⟩

/-- The C10 witness table. -/
def gNineteen : MultiPlayerBlackjack :=
  ⟨Dealer.mkNew, [], [pNineteen], 0, GamePhase.player_turn, [], 0⟩

/-- Witness for C10: hitting 19 with a 2 makes exactly 21 and the player
stays current in PLAYER_TURN with no result recorded. -/
theorem MultiPlayerBlackjack.hit_to_21_spec_witness :
    MultiPlayerBlackjack.hit streamTwos gNineteen "Bob"
      = ({ gNineteen with
            active_players :=
              gNineteen.active_players.set gNineteen.current_player_idx
                (Player.hit pNineteen (streamTwos gNineteen.drawIdx)),
            drawIdx := gNineteen.drawIdx + 1 }, true) ∧
    (MultiPlayerBlackjack.hit streamTwos gNineteen "Bob").1.phase
      = GamePhase.player_turn ∧
    (MultiPlayerBlackjack.hit streamTwos gNineteen "Bob").1.current_player_idx
      = gNineteen.current_player_idx ∧
    (MultiPlayerBlackjack.hit streamTwos gNineteen "Bob").1.results
      = gNineteen.results ∧
    (MultiPlayerBlackjack.hit streamTwos gNineteen "Bob").1.current_player
      = some (Player.hit pNineteen (streamTwos gNineteen.drawIdx)) ∧
    (Player.hit pNineteen (streamTwos gNineteen.drawIdx)).is_standing
      = pNineteen.is_standing ∧
    (Player.hit pNineteen (streamTwos gNineteen.drawIdx)).is_busted = false :=
  MultiPlayerBlackjack.hit_to_21_spec streamTwos gNineteen "Bob" pNineteen
    (by decide) (by decide) (by decide) (by decide) (by decide)

theorem find?_append_of_none {α} (l1 l2 : List α) (p : α → Bool) (x : α)
    (h1 : l1.find? p = none) (h2 : l2.find? p = some x) :
    (l1 ++ l2).find? p = some x := by
  rw [List.find?_append, h1]
  exact h2

theorem resolved_append_single (res : List (String × GameResult))
    (e : String × GameResult) (n : String) :
    resolved (res ++ [e]) n = (resolved res n || (e.1 == n)) := by
  simp [resolved]

theorem settle_foldl (ds : Nat) (db : Bool) :
    ∀ (ps : List Player) (acc1 : List Player) (res : List (String × GameResult)),
      (ps.map Player.name).Nodup →
      ps.foldl (settleStep ds db) (acc1, res)
        = (acc1 ++ ps.map (fun p => if resolved res p.name then p
              else (settlePlayer ds db p).1),
           res ++ (ps.filter (fun p => !(resolved res p.name))).map
             (fun p => (p.name, (settlePlayer ds db p).2))) := by
  intro ps
  induction ps with
  | nil => intro acc1 res _; simp
  | cons p ps ih =>
    intro acc1 res hnd
    have hfresh : p.name ∉ ps.map Player.name := (List.nodup_cons.mp (by simpa using hnd)).1
    have hnd' : (ps.map Player.name).Nodup := (List.nodup_cons.mp (by simpa using hnd)).2
    rw [List.foldl_cons]
    by_cases hres : resolved res p.name = true
    · rw [show settleStep ds db (acc1, res) p = (acc1 ++ [p], res) by
        simp [settleStep, hres]]
      rw [ih (acc1 ++ [p]) res hnd']
      simp [hres, List.append_assoc]
    · have hres' : resolved res p.name = false := by
        revert hres; cases resolved res p.name <;> simp
      rw [show settleStep ds db (acc1, res) p
          = (acc1 ++ [(settlePlayer ds db p).1],
             res ++ [(p.name, (settlePlayer ds db p).2)]) by
        simp [settleStep, hres']]
      rw [ih (acc1 ++ [(settlePlayer ds db p).1])
            (res ++ [(p.name, (settlePlayer ds db p).2)]) hnd']
      have hcong : ∀ q ∈ ps,
          resolved (res ++ [(p.name, (settlePlayer ds db p).2)]) q.name
            = resolved res q.name := by
        intro q hq
        rw [resolved_append_single]
        have hneq : (p.name == q.name) = false := by
          simp only [beq_eq_false_iff_ne, ne_eq]
          intro he
          exact hfresh (he ▸ List.mem_map_of_mem Player.name hq)
        simp [hneq]
      have hmapc : (ps.map (fun q =>
            if resolved (res ++ [(p.name, (settlePlayer ds db p).2)]) q.name then q
            else (settlePlayer ds db q).1))
          = ps.map (fun q => if resolved res q.name then q else (settlePlayer ds db q).1) := by
        apply List.map_congr_left
        intro q hq
        rw [hcong q hq]
      have hfiltc : (ps.filter (fun q =>
            !(resolved (res ++ [(p.name, (settlePlayer ds db p).2)]) q.name)))
          = ps.filter (fun q => !(resolved res q.name)) := by
        apply List.filter_congr
        intro q hq
        rw [hcong q hq]
      rw [hmapc, hfiltc]
      simp [hres', List.append_assoc]

theorem find?_map_name (f : Player → GameResult) (n : String) :
    ∀ ps : List Player, (ps.map Player.name).Nodup →
      ∀ p ∈ ps, p.name = n →
        ((ps.map (fun q => (q.name, f q))).find? (fun e => e.1 == n))
          = some (p.name, f p) := by
  intro ps
  induction ps with
  | nil => intro _ p hp; exact absurd hp (List.not_mem_nil p)
  | cons q ps ih =>
    intro hnd p hp hn
    have hfresh : q.name ∉ ps.map Player.name := (List.nodup_cons.mp (by simpa using hnd)).1
    have hnd' : (ps.map Player.name).Nodup := (List.nodup_cons.mp (by simpa using hnd)).2
    rcases List.mem_cons.mp hp with rfl | hp'
    · simp [List.find?_cons, hn]
    · have hqn : q.name ≠ n := by
        intro he
        apply hfresh
        rw [he, ← hn]
        exact List.mem_map_of_mem Player.name hp'
      rw [List.map_cons]
      rw [List.find?_cons_of_neg _ (by simp [hqn])]
      exact ih hnd' p hp' hn

/-- Claim C2: after the dealer's turn, every still-unresolved active player
is settled exactly as follows — dealer busted, or a player score above the
dealer's: result `player_win` and exactly twice the bet credited; dealer
score above the player's: `dealer_win`, nothing credited; equal scores:
`push`, exactly the bet credited.  A natural blackjack (resolved earlier in
`_check_initial_blackjacks`, dealer without a natural) credits
`int(2.5 * bet)` = ⌊5·bet/2⌋ chips. -/
theorem MultiPlayerBlackjack.determine_winners_spec (g : MultiPlayerBlackjack)
    (hnd : (g.active_players.map Player.name).Nodup)
    (j : Nat) (p : Player) (hp : g.active_players[j]? = some p)
    (hunres : resolved g.results p.name = false) :
    ((MultiPlayerBlackjack.determine_winners g).active_players[j]?
        = some (settlePlayer (getScore g.dealer.hand) g.dealer.is_busted p).1 ∧
      resLookup (MultiPlayerBlackjack.determine_winners g).results p.name
        = some (settlePlayer (getScore g.dealer.hand) g.dealer.is_busted p).2 ∧
      (MultiPlayerBlackjack.determine_winners g).phase = GamePhase.complete) ∧
    (∀ ds db (q : Player), (db = true ∨ ds < getScore q.hand) →
        settlePlayer ds db q
          = ({ q with chips := q.chips + q.current_bet * 2 }, GameResult.player_win)) ∧
    (∀ ds (q : Player), getScore q.hand < ds →
        settlePlayer ds false q = (q, GameResult.dealer_win)) ∧
    (∀ ds (q : Player), getScore q.hand = ds →
        settlePlayer ds false q
          = ({ q with chips := q.chips + q.current_bet }, GameResult.push)) ∧
    (∀ q : Player, q.has_blackjack = true →
        resolveInitial false q
          = ({ q with chips := q.chips + 5 * q.current_bet / 2, is_standing := true },
             some GameResult.player_blackjack)) := by
  refine ⟨?_, ?_, ?_, ?_, ?_⟩
  · have hz := settle_foldl (getScore g.dealer.hand) g.dealer.is_busted
      g.active_players [] g.results hnd
    have hmem : p ∈ g.active_players := List.getElem?_mem hp
    refine ⟨?_, ?_, rfl⟩
    · show ((g.active_players.foldl
          (settleStep (getScore g.dealer.hand) g.dealer.is_busted) ([], g.results)).1)[j]?
        = _
      rw [hz]
      simp only [List.nil_append]
      rw [List.getElem?_map, hp]
      simp [hunres]
    · show resLookup ((g.active_players.foldl
          (settleStep (getScore g.dealer.hand) g.dealer.is_busted) ([], g.results)).2) p.name
        = _
      rw [hz]
      unfold resLookup
      have hnone : g.results.find? (fun e => e.1 == p.name) = none := by
        apply List.find?_eq_none.mpr
        intro e he hbe
        have : resolved g.results p.name = true := by
          unfold resolved
          exact List.any_eq_true.mpr ⟨e, he, hbe⟩
        rw [this] at hunres
        exact Bool.true_eq_false.mp hunres
      have hsub : (g.active_players.filter
          (fun q => !(resolved g.results q.name))).Sublist g.active_players :=
        List.filter_sublist g.active_players
      have hndf : ((g.active_players.filter
          (fun q => !(resolved g.results q.name))).map Player.name).Nodup :=
        (hsub.map Player.name).nodup hnd
      have hpin : p ∈ g.active_players.filter (fun q => !(resolved g.results q.name)) := by
        rw [List.mem_filter]
        exact ⟨hmem, by rw [hunres]; rfl⟩
      have := find?_map_name
        (fun q => (settlePlayer (getScore g.dealer.hand) g.dealer.is_busted q).2) p.name
        (g.active_players.filter (fun q => !(resolved g.results q.name))) hndf p hpin rfl
      rw [List.nil_append, find?_append_of_none _ _ _ _ hnone this]
      rfl
  · intro ds db q hdb
    rcases hdb with hdb | hdb
    · simp [settlePlayer, hdb]
    · rcases Bool.eq_false_or_eq_true db with hb | hb
      · subst hb
        simp [settlePlayer]
      · subst hb
        simp only [settlePlayer]
        rw [if_neg (by simp), if_pos hdb]
  · intro ds q hlt
    have h1 : ¬ ds < getScore q.hand := by omega
    have h2 : getScore q.hand < ds := hlt
    simp [settlePlayer, h1, h2]
  · intro ds q heq
    have h1 : ¬ ds < getScore q.hand := by omega
    have h2 : ¬ getScore q.hand < ds := by omega
    simp [settlePlayer, h1, h2]
  · intro q hbj
    simp [resolveInitial, hbj, blackjackWinnings]

/-- The player of the C2 witness: 10♥ 9♦ (19) with a 10-chip bet. -/
def pSettle : Player := ⟨"Cara", 40, [cardTH, card9D], 10, false, false, false⟩

/-- The C2 witness table: the dealer stands on 17, Cara is unresolved. -/
def gSettle : MultiPlayerBlackjack :=
  ⟨⟨[cardTH, card5H, card2C], true, false, false⟩, [], [pSettle], 0,
   GamePhase.dealer_turn, [], 0⟩

/-- Witness for C2: settling the table records a result for Cara and reaches
COMPLETE. -/
theorem MultiPlayerBlackjack.determine_winners_spec_witness :
    (MultiPlayerBlackjack.determine_winners gSettle).active_players[0]?
        = some (settlePlayer (getScore gSettle.dealer.hand) gSettle.dealer.is_busted
            pSettle).1 ∧
    resLookup (MultiPlayerBlackjack.determine_winners gSettle).results pSettle.name
        = some (settlePlayer (getScore gSettle.dealer.hand) gSettle.dealer.is_busted
            pSettle).2 ∧
    (MultiPlayerBlackjack.determine_winners gSettle).phase = GamePhase.complete :=
  (MultiPlayerBlackjack.determine_winners_spec gSettle (by decide) 0 pSettle
    (by decide) (by decide)).1

theorem idx_update_self (g : MultiPlayerBlackjack) :
    ({ g with phase := GamePhase.player_turn,
              current_player_idx := g.current_player_idx })
      = { g with phase := GamePhase.player_turn } := by
  rcases g with ⟨a, b, c, d, e, f, h⟩
  rfl

theorem advanceLoop_first_eligible (stream : Nat → Card) :
    ∀ (k : Nat) (g : MultiPlayerBlackjack),
      g.active_players.length - g.current_player_idx = k →
      ∀ (j : Nat) (hj : j < g.active_players.length), g.current_player_idx ≤ j →
        eligibleB g.results g.active_players[j] = true →
        (∀ (i : Nat) (hi : i < g.active_players.length),
          g.current_player_idx ≤ i → i < j →
          eligibleB g.results g.active_players[i] = false) →
        MultiPlayerBlackjack.advanceLoop stream k g
          = { g with phase := GamePhase.player_turn, current_player_idx := j } := by
  intro k
  induction k with
  | zero =>
    intro g hk j hj hle _ _
    omega
  | succ k ih =>
    intro g hk j hj hle helig hskip
    have hidx : g.current_player_idx < g.active_players.length := by omega
    have hget : g.active_players[g.current_player_idx]?
        = some g.active_players[g.current_player_idx] :=
      List.getElem?_eq_getElem hidx
    rcases Nat.eq_or_lt_of_le hle with heq | hlt
    · subst heq
      rw [show MultiPlayerBlackjack.advanceLoop stream (k + 1) g
          = { g with phase := GamePhase.player_turn } by
        simp only [MultiPlayerBlackjack.advanceLoop, hget]
        rw [if_pos helig]]
    · have hskip0 := hskip g.current_player_idx hidx (Nat.le_refl _) hlt
      rw [show MultiPlayerBlackjack.advanceLoop stream (k + 1) g
          = MultiPlayerBlackjack.advanceLoop stream k
              { g with current_player_idx := g.current_player_idx + 1 } by
        simp only [MultiPlayerBlackjack.advanceLoop, hget]
        rw [if_neg (by simp [hskip0])]]
      exact ih { g with current_player_idx := g.current_player_idx + 1 }
        (by simp; omega) j hj (by simp; omega) helig
        (fun i hi h1 h2 => hskip i hi (by simp at h1; omega) h2)

theorem advanceLoop_exhausted (stream : Nat → Card) :
    ∀ (k : Nat) (g : MultiPlayerBlackjack),
      g.active_players.length - g.current_player_idx = k →
      (∀ (i : Nat) (hi : i < g.active_players.length),
        g.current_player_idx ≤ i →
        eligibleB g.results g.active_players[i] = false) →
      MultiPlayerBlackjack.advanceLoop stream k g
        = MultiPlayerBlackjack.play_dealer_turn stream
            { g with current_player_idx := max g.current_player_idx g.active_players.length } := by
  intro k
  induction k with
  | zero =>
    intro g hk _
    have hmax : max g.current_player_idx g.active_players.length
        = g.current_player_idx := by omega
    rw [hmax]
    rw [show ({ g with current_player_idx := g.current_player_idx }) = g by
      rcases g with ⟨a, b, c, d, e, f, hq⟩
      rfl]
    rfl
  | succ k ih =>
    intro g hk hskip
    have hidx : g.current_player_idx < g.active_players.length := by omega
    have hget : g.active_players[g.current_player_idx]?
        = some g.active_players[g.current_player_idx] :=
      List.getElem?_eq_getElem hidx
    have hskip0 := hskip g.current_player_idx hidx (Nat.le_refl _)
    rw [show MultiPlayerBlackjack.advanceLoop stream (k + 1) g
        = MultiPlayerBlackjack.advanceLoop stream k
            { g with current_player_idx := g.current_player_idx + 1 } by
      simp only [MultiPlayerBlackjack.advanceLoop, hget]
      rw [if_neg (by simp [hskip0])]]
    rw [ih { g with current_player_idx := g.current_player_idx + 1 }
      (by simp; omega)
      (fun i hi h1 => hskip i hi (by simp at h1; omega))]
    have hm1 : max (g.current_player_idx + 1) g.active_players.length
        = g.active_players.length := by omega
    have hm2 : max g.current_player_idx g.active_players.length
        = g.active_players.length := by omega
    simp only [hm1, hm2]

/-- Claim C4: the turn scan of `_advance_to_next_active_player` moves
strictly forward through the active list, skipping exactly the players who
are standing, busted or already have a recorded result; the first
unskippable player becomes current (and nothing else changes), and when the
scan passes the end of the list control falls through to
`_play_dealer_turn` (which enters DEALER_TURN).  The third conjunct shows a
finished turn (`stand`) hands control back to the scan one seat past the
current player, so across a round the current indices are strictly
increasing and each eligible player is visited exactly once, in seating
order. -/
theorem MultiPlayerBlackjack.advance_spec (stream : Nat → Card)
    (g : MultiPlayerBlackjack) :
    (∀ (j : Nat) (hj : j < g.active_players.length), g.current_player_idx ≤ j →
        eligibleB g.results g.active_players[j] = true →
        (∀ (i : Nat) (hi : i < g.active_players.length),
          g.current_player_idx ≤ i → i < j →
          eligibleB g.results g.active_players[i] = false) →
        MultiPlayerBlackjack.advance_to_next_active_player stream g
          = { g with phase := GamePhase.player_turn, current_player_idx := j }) ∧
    ((∀ (i : Nat) (hi : i < g.active_players.length), g.current_player_idx ≤ i →
        eligibleB g.results g.active_players[i] = false) →
        MultiPlayerBlackjack.advance_to_next_active_player stream g
          = MultiPlayerBlackjack.play_dealer_turn stream
              { g with current_player_idx := max g.current_player_idx g.active_players.length }) ∧
    (∀ (name : String) (p : Player), g.phase = GamePhase.player_turn →
        g.current_player = some p → pyLower p.name = pyStrip (pyLower name) →
        MultiPlayerBlackjack.stand stream g name
          = (MultiPlayerBlackjack.advance_to_next_active_player stream
              { g with
                  active_players :=
                    g.active_players.set g.current_player_idx (Player.stand p),
                  current_player_idx := g.current_player_idx + 1 }, true)) := by
  refine ⟨?_, ?_, ?_⟩
  · intro j hj hle helig hskip
    exact advanceLoop_first_eligible stream _ g rfl j hj hle helig hskip
  · intro hskip
    exact advanceLoop_exhausted stream _ g rfl hskip
  · intro name p hphase hcur hname
    unfold MultiPlayerBlackjack.current_player at hcur
    unfold MultiPlayerBlackjack.stand
    rw [hcur, hphase]
    simp only [ne_eq, not_true_eq_false, if_false, reduceIte, hname, not_false_eq_true]

/-- The standing player of the C4 witness (already done for the round). -/
def pDone : Player := ⟨"Dan", 30, [cardTH, cardKD], 5, true, false, false⟩

/-- The C4 witness table: seat 0 is standing, seat 1 can still act. -/
def gScan : MultiPlayerBlackjack :=
  ⟨Dealer.mkNew, [], [pDone, pNineteen], 0, GamePhase.dealing, [], 0⟩

/-- Witness for C4: the scan from seat 0 skips the standing player and makes
seat 1 current. -/
theorem MultiPlayerBlackjack.advance_spec_witness :
    MultiPlayerBlackjack.advance_to_next_active_player streamTwos gScan
      = { gScan with phase := GamePhase.player_turn, current_player_idx := 1 } :=
  (MultiPlayerBlackjack.advance_spec streamTwos gScan).1 1 (by decide) (by decide)
    (by decide)
    (fun i hi h1 h2 => by
      interval_cases i
      show eligibleB gScan.results pDone = false
      decide)

/-- The load-bearing turn invariant: whenever the phase is PLAYER_TURN there
is a current player who is neither standing nor busted nor resolved (so the
turn actions never dereference a missing current player). -/
def TurnInv (g : MultiPlayerBlackjack) : Prop :=
  g.phase = GamePhase.player_turn →
    ∃ p, g.current_player = some p ∧ p.is_standing = false ∧
      p.is_busted = false ∧ resolved g.results p.name = false

theorem TurnInv_of_phase_ne (g : MultiPlayerBlackjack)
    (h : g.phase ≠ GamePhase.player_turn) : TurnInv g :=
  fun hph => absurd hph h

theorem play_dealer_turn_phase (stream : Nat → Card) (g : MultiPlayerBlackjack) :
    (MultiPlayerBlackjack.play_dealer_turn stream g).phase = GamePhase.complete := by
  unfold MultiPlayerBlackjack.play_dealer_turn MultiPlayerBlackjack.determine_winners
  rfl

theorem play_dealer_turn_TurnInv (stream : Nat → Card) (g : MultiPlayerBlackjack) :
    TurnInv (MultiPlayerBlackjack.play_dealer_turn stream g) :=
  TurnInv_of_phase_ne _ (by rw [play_dealer_turn_phase]; decide)

theorem advanceLoop_TurnInv (stream : Nat → Card) :
    ∀ (k : Nat) (g : MultiPlayerBlackjack),
      TurnInv (MultiPlayerBlackjack.advanceLoop stream k g) := by
  intro k
  induction k with
  | zero =>
    intro g
    exact play_dealer_turn_TurnInv stream g
  | succ k ih =>
    intro g
    cases hget : g.active_players[g.current_player_idx]? with
    | none =>
      rw [show MultiPlayerBlackjack.advanceLoop stream (k + 1) g
          = MultiPlayerBlackjack.play_dealer_turn stream g by
        simp only [MultiPlayerBlackjack.advanceLoop, hget]]
      exact play_dealer_turn_TurnInv stream g
    | some p =>
      by_cases helig : eligibleB g.results p = true
      · rw [show MultiPlayerBlackjack.advanceLoop stream (k + 1) g
            = { g with phase := GamePhase.player_turn } by
          simp only [MultiPlayerBlackjack.advanceLoop, hget]
          rw [if_pos helig]]
        intro _
        have hflags := helig
        simp only [eligibleB, Bool.and_eq_true, Bool.not_eq_true'] at hflags
        exact ⟨p, hget, hflags.1.1, hflags.1.2, hflags.2⟩
      · have helig' : ¬ eligibleB g.results p = true := helig
        rw [show MultiPlayerBlackjack.advanceLoop stream (k + 1) g
            = MultiPlayerBlackjack.advanceLoop stream k
                { g with current_player_idx := g.current_player_idx + 1 } by
          simp only [MultiPlayerBlackjack.advanceLoop, hget]
          rw [if_neg helig']]
        exact ih _

theorem advance_TurnInv (stream : Nat → Card) (g : MultiPlayerBlackjack) :
    TurnInv (MultiPlayerBlackjack.advance_to_next_active_player stream g) :=
  advanceLoop_TurnInv stream _ g

theorem start_dealing_TurnInv (stream : Nat → Card) (g : MultiPlayerBlackjack) :
    TurnInv (MultiPlayerBlackjack.start_dealing stream g) := by
  unfold MultiPlayerBlackjack.start_dealing
  exact advance_TurnInv stream _

theorem add_player_TurnInv (g : MultiPlayerBlackjack) (n : String) (h : TurnInv g) :
    TurnInv (MultiPlayerBlackjack.add_player g n).1 := by
  unfold MultiPlayerBlackjack.add_player
  by_cases h1 : g.phase ≠ GamePhase.lobby ∧ g.phase ≠ GamePhase.betting
  · rw [if_pos h1]; exact h
  · rw [if_neg h1]
    have hph : g.phase ≠ GamePhase.player_turn := by
      rcases not_and_or.mp h1 with h2 | h2 <;>
        (rw [not_ne_iff.mp h2]; decide)
    dsimp only
    split_ifs <;> exact TurnInv_of_phase_ne _ hph

theorem remove_player_TurnInv (g : MultiPlayerBlackjack) (n : String) (h : TurnInv g) :
    TurnInv (MultiPlayerBlackjack.remove_player g n).1 := by
  unfold MultiPlayerBlackjack.remove_player
  by_cases h1 : g.phase ≠ GamePhase.lobby ∧ g.phase ≠ GamePhase.betting
  · rw [if_pos h1]; exact h
  · rw [if_neg h1]
    have hph : g.phase ≠ GamePhase.player_turn := by
      rcases not_and_or.mp h1 with h2 | h2 <;>
        (rw [not_ne_iff.mp h2]; decide)
    cases g.active_players.find? (fun p => pyLower p.name == pyStrip (pyLower n)) with
    | none => exact h
    | some p => exact TurnInv_of_phase_ne _ hph

theorem start_betting_TurnInv (g : MultiPlayerBlackjack) (h : TurnInv g) :
    TurnInv (MultiPlayerBlackjack.start_betting g).1 := by
  unfold MultiPlayerBlackjack.start_betting
  split_ifs with h1 h2
  · exact h
  · exact h
  · exact TurnInv_of_phase_ne _ (by intro hc; simp at hc)

theorem new_round_TurnInv (g : MultiPlayerBlackjack) (h : TurnInv g) :
    TurnInv (MultiPlayerBlackjack.new_round g).1 := by
  unfold MultiPlayerBlackjack.new_round
  by_cases h1 : g.phase ≠ GamePhase.complete
  · rw [if_pos h1]; exact h
  · rw [if_neg h1]
    dsimp only
    split_ifs <;> exact TurnInv_of_phase_ne _ (by intro hc; simp at hc)

theorem back_to_lobby_TurnInv (g : MultiPlayerBlackjack) (h : TurnInv g) :
    TurnInv (MultiPlayerBlackjack.back_to_lobby g).1 := by
  unfold MultiPlayerBlackjack.back_to_lobby
  split_ifs with h1
  · exact h
  · exact TurnInv_of_phase_ne _ (by intro hc; simp at hc)

theorem place_bet_TurnInv (stream : Nat → Card) (g : MultiPlayerBlackjack)
    (n : String) (amount : Int) (h : TurnInv g) :
    TurnInv (MultiPlayerBlackjack.place_bet stream g n amount).1 := by
  unfold MultiPlayerBlackjack.place_bet
  by_cases h1 : g.phase ≠ GamePhase.betting
  · rw [if_pos h1]; exact h
  · rw [if_neg h1]
    have hph : g.phase = GamePhase.betting := not_ne_iff.mp h1
    cases g.active_players.findIdx? (fun p => pyLower p.name == pyStrip (pyLower n)) with
    | none => exact h
    | some j =>
      dsimp only
      cases g.active_players[j]? with
      | none => exact h
      | some p =>
        dsimp only
        split_ifs with h2 h3 h4
        · exact h
        · exact h
        · exact start_dealing_TurnInv stream _
        · exact TurnInv_of_phase_ne _ (by intro hc; simp only [] at hc; rw [hph] at hc; cases hc)

theorem stand_TurnInv (stream : Nat → Card) (g : MultiPlayerBlackjack)
    (n : String) (h : TurnInv g) :
    TurnInv (MultiPlayerBlackjack.stand stream g n).1 := by
  unfold MultiPlayerBlackjack.stand
  by_cases h1 : g.phase ≠ GamePhase.player_turn
  · rw [if_pos h1]; exact h
  · rw [if_neg h1]
    cases g.active_players[g.current_player_idx]? with
    | none => exact h
    | some p =>
      dsimp only
      split_ifs with h2
      · exact h
      · exact advance_TurnInv stream _

theorem double_down_TurnInv (stream : Nat → Card) (g : MultiPlayerBlackjack)
    (n : String) (h : TurnInv g) :
    TurnInv (MultiPlayerBlackjack.double_down stream g n).1 := by
  unfold MultiPlayerBlackjack.double_down
  by_cases h1 : g.phase ≠ GamePhase.player_turn
  · rw [if_pos h1]; exact h
  · rw [if_neg h1]
    cases g.active_players[g.current_player_idx]? with
    | none => exact h
    | some p =>
      dsimp only
      split_ifs with h2 h3 h4 h5
      · exact h
      · exact h
      · exact h
      · exact advance_TurnInv stream _
      · exact advance_TurnInv stream _

theorem hit_TurnInv (stream : Nat → Card) (g : MultiPlayerBlackjack)
    (n : String) (h : TurnInv g) :
    TurnInv (MultiPlayerBlackjack.hit stream g n).1 := by
  unfold MultiPlayerBlackjack.hit
  by_cases h1 : g.phase ≠ GamePhase.player_turn
  · rw [if_pos h1]; exact h
  · rw [if_neg h1]
    have hph : g.phase = GamePhase.player_turn := not_ne_iff.mp h1
    cases hget : g.active_players[g.current_player_idx]? with
    | none => exact h
    | some p =>
      dsimp only
      split_ifs with h2 h3
      · exact h
      · exact advance_TurnInv stream _
      · obtain ⟨q, hq, hqs, hqb, hqr⟩ := h hph
        have hpq : q = p := by
          unfold MultiPlayerBlackjack.current_player at hq
          rw [hget] at hq
          exact (Option.some_inj.mp hq).symm
        subst hpq
        intro _
        have hlt : g.current_player_idx < g.active_players.length := by
          rcases List.getElem?_eq_some_iff.mp hget with ⟨hl, _⟩
          exact hl
        refine ⟨Player.hit q (stream g.drawIdx), ?_, ?_, ?_, ?_⟩
        · show (g.active_players.set g.current_player_idx
              (Player.hit q (stream g.drawIdx)))[g.current_player_idx]?
            = some (Player.hit q (stream g.drawIdx))
          exact List.getElem?_set_self hlt
        · simp [Player.hit, hqs]
        · simpa using h3
        · simpa [Player.hit] using hqr

/-- Claim C7 (amended): in every reachable state, whenever the phase is
PLAYER_TURN the `current_player` property yields exactly one player, and
that player is neither standing nor busted nor already resolved — so `hit`,
`stand` and `double_down` never dereference a missing current player.  (The
original claim's other half is false: outside PLAYER_TURN the
`current_player` property can still return a seated player, see the
counterexample.) -/
theorem reachable_turn_invariant (g : MultiPlayerBlackjack) (hr : Reachable g) :
    g.phase = GamePhase.player_turn →
      ∃ p, g.current_player = some p ∧ p.is_standing = false ∧
        p.is_busted = false ∧ resolved g.results p.name = false := by
  have hinv : TurnInv g := by
    induction hr with
    | init =>
      intro hph
      cases hph
    | step g1 g2 hr1 hs ih =>
      cases hs with
      | add_player n => exact add_player_TurnInv g1 n ih
      | remove_player n => exact remove_player_TurnInv g1 n ih
      | start_betting => exact start_betting_TurnInv g1 ih
      | place_bet stream n amount => exact place_bet_TurnInv stream g1 n amount ih
      | hit stream n => exact hit_TurnInv stream g1 n ih
      | stand stream n => exact stand_TurnInv stream g1 n ih
      | double_down stream n => exact double_down_TurnInv stream g1 n ih
      | new_round => exact new_round_TurnInv g1 ih
      | back_to_lobby => exact back_to_lobby_TurnInv g1 ih
  exact hinv

/-- Counterexample to claim C7 as stated: right after the first
`add_player` in the lobby — a reachable state — the phase is LOBBY and yet
`current_player` is not `None` (the index 0 points at the seated player), so
the claimed "no player is current in LOBBY/BETTING/DEALER_TURN/COMPLETE"
disjunct fails, and the PLAYER_TURN disjunct fails too. -/
theorem current_player_lobby_counterexample :
    Reachable (MultiPlayerBlackjack.add_player MultiPlayerBlackjack.mkNew "A").1 ∧
    (MultiPlayerBlackjack.add_player MultiPlayerBlackjack.mkNew "A").1.phase
      = GamePhase.lobby ∧
    (MultiPlayerBlackjack.add_player MultiPlayerBlackjack.mkNew "A").1.current_player
      ≠ none :=
  ⟨Reachable.step _ _ Reachable.init (Step.add_player _ "A"), by decide, by decide⟩

/-- A concrete reachable PLAYER_TURN state for the C7 witness: add "A",
start betting, and have "A" bet 10; dealing and the blackjack check run
automatically (all cards are 2♣, so nobody has a natural). -/
def gReach : MultiPlayerBlackjack :=
  (MultiPlayerBlackjack.place_bet streamTwos
    (MultiPlayerBlackjack.start_betting
      (MultiPlayerBlackjack.add_player MultiPlayerBlackjack.mkNew "A").1).1 "A" 10).1

/-- Witness for C7: the invariant applied to the concrete reachable
PLAYER_TURN state `gReach`. -/
theorem reachable_turn_invariant_witness :
    ∃ p, gReach.current_player = some p ∧ p.is_standing = false ∧
      p.is_busted = false ∧ resolved gReach.results p.name = false :=
  reachable_turn_invariant gReach
    (Reachable.step _ _
      (Reachable.step _ _
        (Reachable.step _ _ Reachable.init (Step.add_player _ "A"))
        (Step.start_betting _))
      (Step.place_bet _ streamTwos "A" 10))
    (by decide)

/-- Witness for the amended C6: the two-card hand A♠ K♦ sets the blackjack
flag. -/
theorem deal_flags_spec_witness :
    (Player.deal (Player.mkNew "W" 100) [cardAS, cardKD]).has_blackjack = true :=
  (deal_flags_spec (Player.mkNew "W" 100) [cardAS, cardKD]).2.2.2.mpr
    ⟨by decide, by decide⟩
